import Mathlib

/-
Shallow embedding of the lexer snapshot assembly (src/src/lexer/lexerSnapshot.ts)
and of the ParserContext arena module that is appended to the same source file.

Modelling conventions:
- JS strings are sequences of UTF-16 code units; they are modelled as `List Char`,
  one list element per code unit.  `String.prototype.substring` is `jsSubstring`.
- JS exceptions are modelled with `Except`: a thrown value travels in the error
  channel and `LexerSnapshot.tryFrom` converts it into the tagged result, exactly
  as the try/catch in the source does.
- The while-loop of `LexerSnapshot.factory` advances by an index taken from a
  token field, so it does not structurally terminate; it is modelled with fuel,
  where a `none` result stands for divergence of the source loop.  The top level
  entry point supplies `numFlatTokens + 1` fuel, enough for every stream whose
  flatIndex fields agree with the token positions (the only streams the
  flattener produces).
- The ParserContext module mutates JS arrays in place through shared references
  (`parent.childNodeIds.push`), so number arrays live in an explicit heap
  (`Heap`) and a node stores a reference (`Nat`) into it.  Nodes themselves are
  never shared between two states (deepCopy allocates fresh node objects), so
  the node map is modelled as an insertion-ordered association list of node
  values, mirroring a JS `Map`.
-/

set_option autoImplicit false

deriving instance DecidableEq for Except

namespace PowerQuery

/-- Position of a token inside the flattened text: global code unit offset,
offset inside its line, and the line number. -/
structure TokenPosition where
  codeUnit : Nat
  lineCodeUnit : Nat
  lineNumber : Nat
deriving DecidableEq, Repr

/-- Line-token kinds.  The source enum has many more members (keywords,
punctuation, ...); every kind the factory switch does not name explicitly is
handled by its default case, so they are collapsed into `Other`. -/
inductive LineTokenKind where
  | LineComment
  | MultilineComment
  | MultilineCommentStart
  | MultilineCommentContent
  | MultilineCommentEnd
  | QuotedIdentifierStart
  | QuotedIdentifierContent
  | QuotedIdentifierEnd
  | TextLiteralStart
  | TextLiteralContent
  | TextLiteralEnd
  | Other (n : Nat)
deriving DecidableEq, Repr

/-- Token kinds of the snapshot.  The factory default case reinterprets a
line-token kind as a token kind by an unchecked cast; that cast is `ofLine`. -/
inductive TokenKind where
  | Identifier
  | TextLiteral
  | ofLine (k : LineTokenKind)
deriving DecidableEq, Repr

/-- A token of the produced snapshot. -/
structure Token where
  kind : TokenKind
  data : List Char
  positionStart : TokenPosition
  positionEnd : TokenPosition
deriving DecidableEq, Repr

inductive CommentKind where
  | Line
  | Multiline
deriving DecidableEq, Repr

/-- A comment of the produced snapshot (LineComment and MultilineComment share
the same fields in the source, distinguished by `kind`). -/
structure Comment where
  kind : CommentKind
  data : List Char
  containsNewline : Bool
  positionStart : TokenPosition
  positionEnd : TokenPosition
deriving DecidableEq, Repr

/-- An entry of the line-terminator table. -/
structure LineTerminator where
  codeUnit : Nat
  text : List Char
deriving DecidableEq, Repr

/-- A per-line token, with offsets local to its line. -/
structure LineToken where
  kind : LineTokenKind
  data : List Char
  positionStart : Nat
  positionEnd : Nat
deriving DecidableEq, Repr

/-- A lexer line: raw text, terminator string, locally-offset tokens. -/
structure TLine where
  text : List Char
  lineTerminator : List Char
  tokens : List LineToken
deriving DecidableEq, Repr

/-- The lexer state handed to `LexerSnapshot.tryFrom` (only the lines matter;
the localization templates carry no behaviour). -/
structure LexerState where
  lines : List TLine
deriving DecidableEq, Repr

/-- A per-line token rewritten with global positions and a sequence index. -/
structure FlatLineToken where
  kind : LineTokenKind
  data : List Char
  positionStart : TokenPosition
  positionEnd : TokenPosition
  flatIndex : Nat
deriving DecidableEq, Repr

/-- Result of `flattenLineTokens`. -/
structure FlattenedLines where
  text : List Char
  lineTerminators : List LineTerminator
  flatLineTokens : List FlatLineToken
deriving DecidableEq, Repr

/-- A grapheme-aware position. Modelled from the spec: the structure produced
by `StringUtils.graphemePositionFrom`, which lives outside src/, carries the
line number, the column number and the absolute code unit offset. -/
structure GraphemePosition where
  lineNumber : Nat
  columnNumber : Nat
  codeUnit : Nat
deriving DecidableEq, Repr

/-- Kinds of unterminated multiline constructs, as carried by
`LexError.UnterminatedMultilineTokenError`. -/
inductive UnterminatedMultilineTokenKind where
  | MultilineComment
  | QuotedIdentifier
  | Text
deriving DecidableEq, Repr

/-- Values thrown during assembly: the user-facing unterminated-token error and
the defensive `CommonError.InvariantError` (whose message payload is dropped). -/
inductive Thrown where
  | unterminatedMultilineTokenError (pos : GraphemePosition) (kind : UnterminatedMultilineTokenKind)
  | invariantError
deriving DecidableEq, Repr

/-- The error union returned by `tryFrom`: inner lex errors are wrapped in
`LexError.LexError`, anything else is normalized into a `CommonError`. -/
inductive TLexError where
  | lexError (inner : Thrown)
  | commonError (e : Thrown)
deriving DecidableEq, Repr

/-- The immutable snapshot. -/
structure LexerSnapshot where
  text : List Char
  tokens : List Token
  comments : List Comment
  lineTerminators : List LineTerminator
deriving DecidableEq, Repr

/-- `String.prototype.substring(a, b)`: clamp both indices to the string
length, swap them when out of order, return the units in between. -/
def jsSubstring (s : List Char) (a b : Nat) : List Char :=
  let a1 := min a s.length
  let b1 := min b s.length
  let lo := min a1 b1
  let hi := max a1 b1
  (s.drop lo).take (hi - lo)

/-- `Array.prototype.indexOf` on a number array, `none` standing for -1. -/
def jsIndexOf : List Nat → Nat → Option Nat
  | [], _ => none
  | x :: r, a => if x = a then some 0 else (jsIndexOf r a).map (· + 1)

/-- The scan inside `LexerSnapshot.graphemePositionStartFrom`: walk the
terminator table, keeping the offset just past each terminator that starts
strictly before `ps`, and break at the first terminator at or after `pe`. -/
def windowLoop : List LineTerminator → Nat → Nat → Nat → Nat → Nat × Nat
  | [], _, _, s, e => (s, e)
  | lt :: rest, ps, pe, s, e =>
    let s1 := if lt.codeUnit < ps then lt.codeUnit + lt.text.length else s
    if pe ≤ lt.codeUnit then (s1, lt.codeUnit + lt.text.length)
    else windowLoop rest ps pe s1 e

/-- The substring window `[substringPositionStart, substringPositionEnd)`
computed by `LexerSnapshot.graphemePositionStartFrom`. -/
def substringWindow (text : List Char) (lineTerminators : List LineTerminator)
    (ps pe : Nat) : Nat × Nat :=
  windowLoop lineTerminators ps pe 0 text.length

/-- Modelled from the spec: `StringUtils.graphemePositionFrom` lives outside
src/.  Per the spec it computes a grapheme-cluster-aware column over the given
text window; in this embedding every code unit stands for one grapheme
cluster, so the column equals the line-local offset. -/
def graphemePositionFrom (window : List Char) (lineCodeUnit lineNumber codeUnit : Nat) :
    GraphemePosition :=
  { lineNumber := lineNumber
    columnNumber := min lineCodeUnit window.length
    codeUnit := codeUnit }

/-- `LexerSnapshot.graphemePositionStartFrom`. -/
def LexerSnapshot.graphemePositionStartFrom (text : List Char)
    (lineTerminators : List LineTerminator) (flatLineToken : FlatLineToken) :
    GraphemePosition :=
  let positionStart := flatLineToken.positionStart
  let positionEnd := flatLineToken.positionEnd
  let w := substringWindow text lineTerminators positionStart.codeUnit positionEnd.codeUnit
  graphemePositionFrom (jsSubstring text w.1 w.2)
    positionStart.lineCodeUnit positionStart.lineNumber positionEnd.codeUnit

/-- Result record of `collectWhileContent`. -/
structure FlatLineCollection where
  tokenStart : FlatLineToken
  collectedTokens : List FlatLineToken
  maybeTokenEnd : Option FlatLineToken
deriving DecidableEq, Repr

/-- The while loop of `collectWhileContent`, walking the suffix of the flat
token list that starts right after the start token: collect tokens of the
content kind, stop at the first other token (`none` when the stream ends). -/
def collectRun (contentKind : LineTokenKind) :
    List FlatLineToken → List FlatLineToken × Option FlatLineToken
  | [] => ([], none)
  | t :: rest =>
    if t.kind = contentKind then
      let r := collectRun contentKind rest
      (t :: r.1, r.2)
    else ([], some t)

/-- `collectWhileContent`. -/
def collectWhileContent (flatTokens : List FlatLineToken) (tokenStart : FlatLineToken)
    (contentKind : LineTokenKind) : FlatLineCollection :=
  let r := collectRun contentKind (flatTokens.drop (tokenStart.flatIndex + 1))
  { tokenStart := tokenStart
    collectedTokens := r.1
    maybeTokenEnd := r.2 }

/-- `readLineComment`. -/
def readLineComment (flatToken : FlatLineToken) : Comment :=
  { kind := CommentKind.Line
    data := flatToken.data
    containsNewline := true
    positionStart := flatToken.positionStart
    positionEnd := flatToken.positionEnd }

/-- `readSingleLineMultilineComment`. -/
def readSingleLineMultilineComment (flatToken : FlatLineToken) : Comment :=
  { kind := CommentKind.Multiline
    data := flatToken.data
    containsNewline := flatToken.positionStart.lineNumber != flatToken.positionEnd.lineNumber
    positionStart := flatToken.positionStart
    positionEnd := flatToken.positionEnd }

/-- Result record of `readMultilineComment`. -/
structure ConcatenatedCommentRead where
  comment : Comment
  flatIndexEnd : Nat
deriving DecidableEq, Repr

/-- Result record of `readQuotedIdentifier` and `readTextLiteral`. -/
structure ConcatenatedTokenRead where
  token : Token
  flatIndexEnd : Nat
deriving DecidableEq, Repr

/-- `readMultilineComment`. -/
def readMultilineComment (fl : FlattenedLines) (tokenStart : FlatLineToken) :
    Except Thrown ConcatenatedCommentRead :=
  let collection := collectWhileContent fl.flatLineTokens tokenStart LineTokenKind.MultilineCommentContent
  match collection.maybeTokenEnd with
  | none =>
    Except.error (Thrown.unterminatedMultilineTokenError
      (LexerSnapshot.graphemePositionStartFrom fl.text fl.lineTerminators tokenStart)
      UnterminatedMultilineTokenKind.MultilineComment)
  | some tokenEnd =>
    if tokenEnd.kind = LineTokenKind.MultilineCommentEnd then
      Except.ok
        { comment :=
            { kind := CommentKind.Multiline
              data := jsSubstring fl.text tokenStart.positionStart.codeUnit tokenEnd.positionEnd.codeUnit
              containsNewline := tokenStart.positionStart.lineNumber != tokenEnd.positionEnd.lineNumber
              positionStart := tokenStart.positionStart
              positionEnd := tokenEnd.positionEnd }
          flatIndexEnd := tokenEnd.flatIndex }
    else Except.error Thrown.invariantError

/-- `readQuotedIdentifier`. -/
def readQuotedIdentifier (fl : FlattenedLines) (tokenStart : FlatLineToken) :
    Except Thrown ConcatenatedTokenRead :=
  let collection := collectWhileContent fl.flatLineTokens tokenStart LineTokenKind.QuotedIdentifierContent
  match collection.maybeTokenEnd with
  | none =>
    Except.error (Thrown.unterminatedMultilineTokenError
      (LexerSnapshot.graphemePositionStartFrom fl.text fl.lineTerminators tokenStart)
      UnterminatedMultilineTokenKind.QuotedIdentifier)
  | some tokenEnd =>
    if tokenEnd.kind = LineTokenKind.QuotedIdentifierEnd then
      Except.ok
        { token :=
            { kind := TokenKind.Identifier
              data := jsSubstring fl.text tokenStart.positionStart.codeUnit tokenEnd.positionEnd.codeUnit
              positionStart := tokenStart.positionStart
              positionEnd := tokenEnd.positionEnd }
          flatIndexEnd := tokenEnd.flatIndex }
    else Except.error Thrown.invariantError

/-- `readTextLiteral`. -/
def readTextLiteral (fl : FlattenedLines) (tokenStart : FlatLineToken) :
    Except Thrown ConcatenatedTokenRead :=
  let collection := collectWhileContent fl.flatLineTokens tokenStart LineTokenKind.TextLiteralContent
  match collection.maybeTokenEnd with
  | none =>
    Except.error (Thrown.unterminatedMultilineTokenError
      (LexerSnapshot.graphemePositionStartFrom fl.text fl.lineTerminators tokenStart)
      UnterminatedMultilineTokenKind.Text)
  | some tokenEnd =>
    if tokenEnd.kind = LineTokenKind.TextLiteralEnd then
      Except.ok
        { token :=
            { kind := TokenKind.TextLiteral
              data := jsSubstring fl.text tokenStart.positionStart.codeUnit tokenEnd.positionEnd.codeUnit
              positionStart := tokenStart.positionStart
              positionEnd := tokenEnd.positionEnd }
          flatIndexEnd := tokenEnd.flatIndex }
    else Except.error Thrown.invariantError

/-- The inner loop of `flattenLineTokens` over one line: rewrite each local
token with global positions and consecutive flat indices. -/
def flattenLineToks : List LineToken → Nat → Nat → Nat → List FlatLineToken
  | [], _, _, _ => []
  | t :: r, lineTextOffset, lineNumber, flatIndex =>
    { kind := t.kind
      data := t.data
      positionStart :=
        { codeUnit := lineTextOffset + t.positionStart
          lineCodeUnit := t.positionStart
          lineNumber := lineNumber }
      positionEnd :=
        { codeUnit := lineTextOffset + t.positionEnd
          lineCodeUnit := t.positionEnd
          lineNumber := lineNumber }
      flatIndex := flatIndex } :: flattenLineToks r lineTextOffset lineNumber (flatIndex + 1)

/-- The outer loop of `flattenLineTokens`: concatenate line texts (appending
the terminator for every line except the last), record one terminator entry per
line, and flatten each line token list. -/
def flattenLinesAux : List TLine → Nat → Nat → Nat → Nat → FlattenedLines
  | [], _, _, _, _ => { text := [], lineTerminators := [], flatLineTokens := [] }
  | line :: rest, lineNumber, lineTextOffset, flatIndex, numLines =>
    let lineText := line.text ++ (if lineNumber ≠ numLines - 1 then line.lineTerminator else [])
    let toks := flattenLineToks line.tokens lineTextOffset lineNumber flatIndex
    let lineTerminatorCodeUnit := lineTextOffset + line.text.length
    let r := flattenLinesAux rest (lineNumber + 1)
      (lineTerminatorCodeUnit + line.lineTerminator.length) (flatIndex + line.tokens.length) numLines
    { text := lineText ++ r.text
      lineTerminators := { codeUnit := lineTerminatorCodeUnit, text := line.lineTerminator } :: r.lineTerminators
      flatLineTokens := toks ++ r.flatLineTokens }

/-- `flattenLineTokens`. -/
def flattenLineTokens (state : LexerState) : FlattenedLines :=
  flattenLinesAux state.lines 0 0 0 state.lines.length

/-- The while loop of `LexerSnapshot.factory`, with fuel; `none` models
divergence of the source loop (possible only when flatIndex fields disagree
with token positions, which the flattener never produces). -/
def factoryLoop (fl : FlattenedLines) : Nat → Nat → Option (Except Thrown (List Token × List Comment))
  | 0, _ => none
  | fuel + 1, flatIndex =>
    match fl.flatLineTokens[flatIndex]? with
    | none => some (Except.ok ([], []))
    | some flatToken =>
      match flatToken.kind with
      | LineTokenKind.LineComment =>
        (factoryLoop fl fuel (flatIndex + 1)).map (Except.map
          (fun tc => (tc.1, readLineComment flatToken :: tc.2)))
      | LineTokenKind.MultilineComment =>
        (factoryLoop fl fuel (flatIndex + 1)).map (Except.map
          (fun tc => (tc.1, readSingleLineMultilineComment flatToken :: tc.2)))
      | LineTokenKind.MultilineCommentStart =>
        match readMultilineComment fl flatToken with
        | Except.error e => some (Except.error e)
        | Except.ok r =>
          (factoryLoop fl fuel (r.flatIndexEnd + 1)).map (Except.map
            (fun tc => (tc.1, r.comment :: tc.2)))
      | LineTokenKind.QuotedIdentifierStart =>
        match readQuotedIdentifier fl flatToken with
        | Except.error e => some (Except.error e)
        | Except.ok r =>
          (factoryLoop fl fuel (r.flatIndexEnd + 1)).map (Except.map
            (fun tc => (r.token :: tc.1, tc.2)))
      | LineTokenKind.TextLiteralStart =>
        match readTextLiteral fl flatToken with
        | Except.error e => some (Except.error e)
        | Except.ok r =>
          (factoryLoop fl fuel (r.flatIndexEnd + 1)).map (Except.map
            (fun tc => (r.token :: tc.1, tc.2)))
      | k =>
        (factoryLoop fl fuel (flatIndex + 1)).map (Except.map
          (fun tc =>
            (({ kind := TokenKind.ofLine k
                data := flatToken.data
                positionStart := flatToken.positionStart
                positionEnd := flatToken.positionEnd } : Token) :: tc.1, tc.2)))

/-- `LexerSnapshot.factory`. -/
def LexerSnapshot.factory (state : LexerState) : Option (Except Thrown LexerSnapshot) :=
  let fl := flattenLineTokens state
  (factoryLoop fl (fl.flatLineTokens.length + 1) 0).map (Except.map
    (fun tc =>
      { text := fl.text
        tokens := tc.1
        comments := tc.2
        lineTerminators := fl.lineTerminators }))

/-- `LexError.isTInnerLexError`, restricted to the values this file throws. -/
def isTInnerLexError : Thrown → Bool
  | Thrown.unterminatedMultilineTokenError _ _ => true
  | Thrown.invariantError => false

/-- The catch block of `tryFrom`: inner lex errors become `LexError.LexError`,
anything else is normalized with `CommonError.ensureCommonError`. -/
def wrapThrown (e : Thrown) : TLexError :=
  if isTInnerLexError e then TLexError.lexError e else TLexError.commonError e

/-- The try/catch of `tryFrom` around the factory result. -/
def wrapResult : Except Thrown LexerSnapshot → Except TLexError LexerSnapshot
  | Except.ok s => Except.ok s
  | Except.error e => Except.error (wrapThrown e)

/-- `LexerSnapshot.tryFrom`. -/
def LexerSnapshot.tryFrom (state : LexerState) : Option (Except TLexError LexerSnapshot) :=
  (LexerSnapshot.factory state).map wrapResult

/-
The ParserContext arena.  JS number arrays (`childNodeIds`) are mutated in
place through shared references, so they live in `Heap`; a node field holds a
reference (index) into it.  Everything else is held by value: node objects are
never shared between two states (deepCopy creates fresh objects), and the
terminal id array is never shared either (deepCopy slices it).
-/

/-- The heap of JS number arrays. -/
structure Heap where
  cells : List (List Nat)
deriving DecidableEq, Repr

/-- Read the array behind a reference. -/
def Heap.ref (h : Heap) (r : Nat) : List Nat :=
  (h.cells[r]?).getD []

/-- Overwrite the array behind a reference. -/
def Heap.write (h : Heap) (r : Nat) (v : List Nat) : Heap :=
  { cells := h.cells.set r v }

/-- Allocate a fresh array, returning the new heap and the reference. -/
def Heap.alloc (h : Heap) (v : List Nat) : Heap × Nat :=
  ({ cells := h.cells ++ [v] }, h.cells.length)

namespace ParserContext

/-- Modelled from the spec: `Ast.TNode` lives outside src/.  Only its
`terminalNode` flag is read by this module; a numeric tag stands for the rest
of the payload so that distinct fragments stay distinguishable. -/
structure AstNode where
  terminalNode : Bool
  tag : Nat
deriving DecidableEq, Repr

/-- A parse-tree node.  `nodeKind` (the `Ast.NodeKind` enum, outside src/) is a
number; `childNodeIds` is a reference into the array heap. -/
structure Node where
  nodeId : Nat
  nodeKind : Nat
  maybeTokenStart : Option Token
  maybeParentId : Option Nat
  childNodeIds : Nat
  maybeAstNode : Option AstNode
deriving DecidableEq, Repr

/-- The node map, as an insertion-ordered association list (a JS `Map`). -/
abbrev NodeMap := List (Nat × Node)

/-- `Map.prototype.get`. -/
def mapGet : NodeMap → Nat → Option Node
  | [], _ => none
  | e :: r, k => if e.1 = k then some e.2 else mapGet r k

/-- `Map.prototype.set`: update in place when the key exists, else append. -/
def mapSet : NodeMap → Nat → Node → NodeMap
  | [], k, v => [(k, v)]
  | e :: r, k, v => if e.1 = k then (k, v) :: r else e :: mapSet r k v

/-- `Map.prototype.delete`. -/
def mapDelete : NodeMap → Nat → NodeMap
  | [], _ => []
  | e :: r, k => if e.1 = k then mapDelete r k else e :: mapDelete r k

/-- `Map.prototype.has`. -/
def mapHas (m : NodeMap) (k : Nat) : Bool :=
  (mapGet m k).isSome

/-- Write a field of the node object stored under a key (a JS field assignment
through a reference to a node that sits in the map). -/
def mapSetAst (m : NodeMap) (k : Nat) (a : AstNode) : NodeMap :=
  m.map (fun e => if e.1 = k then (e.1, { e.2 with maybeAstNode := some a }) else e)

/-- `ParserContext.State`.  `root` holds the node object the caller stored
there (`Root.maybeNode`). -/
structure State where
  root : Option Node
  nodesById : NodeMap
  terminalNodeIds : List Nat
  nodeIdCounter : Nat
deriving DecidableEq, Repr

/-- `ParserContext.empty`. -/
def empty : State :=
  { root := none
    nodesById := []
    terminalNodeIds := []
    nodeIdCounter := 0 }

/-- `ParserContext.addChild`.  The parent is passed as a node object, exactly
as in the source; the push goes through its `childNodeIds` reference. -/
def addChild (h : Heap) (state : State) (maybeParent : Option Node) (nodeKind : Nat)
    (tokenStart : Option Token) : (Heap × State) × Node :=
  let counter := state.nodeIdCounter + 1
  let state1 := { state with nodeIdCounter := counter }
  let newNodeId := counter
  let hp : Heap × Option Nat :=
    match maybeParent with
    | some parent =>
      (h.write parent.childNodeIds (h.ref parent.childNodeIds ++ [newNodeId]), some parent.nodeId)
    | none => (h, none)
  let ha := hp.1.alloc []
  let child : Node :=
    { nodeId := counter
      nodeKind := nodeKind
      maybeTokenStart := tokenStart
      maybeParentId := hp.2
      childNodeIds := ha.2
      maybeAstNode := none }
  ((ha.1, { state1 with nodesById := mapSet state1.nodesById child.nodeId child }), child)

/-- `ParserContext.endContext`.  Mutations happen in source order: the terminal
push, the AST assignment, then the parent lookup that may throw. -/
def endContext (state : State) (oldNode : Node) (astNode : AstNode) :
    State × Except Thrown (Option Node) :=
  let state1 :=
    if astNode.terminalNode then
      { state with terminalNodeIds := state.terminalNodeIds ++ [oldNode.nodeId] }
    else state
  let state2 := { state1 with nodesById := mapSetAst state1.nodesById oldNode.nodeId astNode }
  match oldNode.maybeParentId with
  | none => (state2, Except.ok none)
  | some parentId =>
    match mapGet state2.nodesById parentId with
    | some parent => (state2, Except.ok (some parent))
    | none => (state2, Except.error Thrown.invariantError)

/-- `ParserContext.deleteContext`.  The state component of the result is the
state as left behind when the function returns or throws. -/
def deleteContext (h : Heap) (state : State) (node : Node) :
    (Heap × State) × Except Thrown (Option Node) :=
  let nodeId := node.nodeId
  if mapHas state.nodesById nodeId then
    let state1 := { state with nodesById := mapDelete state.nodesById nodeId }
    let state2 :=
      match jsIndexOf state1.terminalNodeIds nodeId with
      | some terminalIndex =>
        { state1 with terminalNodeIds :=
            state1.terminalNodeIds.take terminalIndex ++ state1.terminalNodeIds.drop (terminalIndex + 1) }
      | none => state1
    match node.maybeParentId with
    | none => ((h, state2), Except.ok none)
    | some parentId =>
      match mapGet state2.nodesById parentId with
      | none => ((h, state2), Except.error Thrown.invariantError)
      | some parent =>
        let childNodeIds := h.ref parent.childNodeIds
        match jsIndexOf childNodeIds nodeId with
        | none => ((h, state2), Except.error Thrown.invariantError)
        | some childNodeIndex =>
          let ha := h.alloc (childNodeIds.take childNodeIndex ++ childNodeIds.drop (childNodeIndex + 1))
          let parent2 := { parent with childNodeIds := ha.2 }
          ((ha.1, { state2 with nodesById := mapSet state2.nodesById parentId parent2 }), Except.ok (some parent2))
  else ((h, state), Except.error Thrown.invariantError)

/-- `deepCopyNode`: an object spread of the node (so the `childNodeIds`
reference is carried over as is) with a fresh shallow copy of the AST node. -/
def deepCopyNode (node : Node) : Node :=
  { node with maybeAstNode :=
      match node.maybeAstNode with
      | some a => some { terminalNode := a.terminalNode, tag := a.tag }
      | none => none }

/-- `ParserContext.deepCopy`: copy every map entry through `deepCopyNode`,
re-derive the root by looking up id 0 in the new map, slice the terminal list,
keep the counter. -/
def deepCopy (h : Heap) (state : State) : Heap × State :=
  let nodesById := state.nodesById.map (fun e => (e.1, deepCopyNode e.2))
  (h,
    { root := mapGet nodesById 0
      nodesById := nodesById
      terminalNodeIds := state.terminalNodeIds
      nodeIdCounter := state.nodeIdCounter })

end ParserContext

/-
Claim-side definitions: a driver for arbitrary operation sequences against an
arena (nodes addressed by id and resolved in the current state, the way the
parser hands back the node objects it received), and the declarative
reformulations that some claims are compared against.
-/

/-- An arena operation, naming its node by id. -/
inductive ArenaOp where
  | addChildOp (maybeParentId : Option Nat) (nodeKind : Nat) (tokenStart : Option Token)
  | endContextOp (nodeId : Nat) (astNode : ParserContext.AstNode)
  | deleteContextOp (nodeId : Nat)
  | deepCopyOp
deriving DecidableEq, Repr

/-- Apply one operation to a heap/state pair; the extra component is the id
allocated by an addChild, when any.  Operations naming an id that is not in the
map are skipped, and deepCopy keeps driving the original state. -/
def applyOp (hs : Heap × ParserContext.State) (op : ArenaOp) :
    (Heap × ParserContext.State) × Option Nat :=
  match op with
  | ArenaOp.addChildOp mp k t =>
    let r := ParserContext.addChild hs.1 hs.2 (mp.bind (fun i => ParserContext.mapGet hs.2.nodesById i)) k t
    (r.1, some r.2.nodeId)
  | ArenaOp.endContextOp nid a =>
    match ParserContext.mapGet hs.2.nodesById nid with
    | some n => ((hs.1, (ParserContext.endContext hs.2 n a).1), none)
    | none => (hs, none)
  | ArenaOp.deleteContextOp nid =>
    match ParserContext.mapGet hs.2.nodesById nid with
    | some n => ((ParserContext.deleteContext hs.1 hs.2 n).1, none)
    | none => (hs, none)
  | ArenaOp.deepCopyOp =>
    let r := ParserContext.deepCopy hs.1 hs.2
    ((r.1, hs.2), none)

/-- Run a sequence of operations, collecting the ids addChild returned. -/
def runOps (hs : Heap × ParserContext.State) : List ArenaOp → (Heap × ParserContext.State) × List Nat
  | [] => (hs, [])
  | op :: rest =>
    let r := applyOp hs op
    let rr := runOps r.1 rest
    (rr.1, r.2.toList ++ rr.2)

/-- Is this line-token kind one of the three multiline start kinds? -/
def isStartKind : LineTokenKind → Bool
  | LineTokenKind.MultilineCommentStart => true
  | LineTokenKind.QuotedIdentifierStart => true
  | LineTokenKind.TextLiteralStart => true
  | _ => false

/-- The content kind matching a multiline start kind. -/
def contentKindOf : LineTokenKind → Option LineTokenKind
  | LineTokenKind.MultilineCommentStart => some LineTokenKind.MultilineCommentContent
  | LineTokenKind.QuotedIdentifierStart => some LineTokenKind.QuotedIdentifierContent
  | LineTokenKind.TextLiteralStart => some LineTokenKind.TextLiteralContent
  | _ => none

/-- The unterminated-error kind matching a multiline start kind (arbitrary on
other kinds, which never reach the error). -/
def unterminatedKindOf : LineTokenKind → UnterminatedMultilineTokenKind
  | LineTokenKind.QuotedIdentifierStart => UnterminatedMultilineTokenKind.QuotedIdentifier
  | LineTokenKind.TextLiteralStart => UnterminatedMultilineTokenKind.Text
  | _ => UnterminatedMultilineTokenKind.MultilineComment

/-- Does a tryFrom result carry an UnterminatedMultilineTokenError? -/
def isUnterminatedError : Option (Except TLexError LexerSnapshot) → Bool
  | some (Except.error (TLexError.lexError (Thrown.unterminatedMultilineTokenError _ _))) => true
  | _ => false

/-- The last line terminator of the table that starts strictly before the
given code unit offset (in table order). -/
def lastTerminatorBefore (lineTerminators : List LineTerminator) (cu : Nat) : Option LineTerminator :=
  (lineTerminators.filter (fun lt => decide (lt.codeUnit < cu))).getLast?

/-- The first line terminator of the table that starts at or after the given
code unit offset. -/
def firstTerminatorAtOrAfter (lineTerminators : List LineTerminator) (cu : Nat) : Option LineTerminator :=
  lineTerminators.find? (fun lt => decide (cu ≤ lt.codeUnit))

/-- The window start offset the claim describes: just past the last terminator
strictly before the span start, or 0 (the supplied default) without one. -/
def windowStartOf (lineTerminators : List LineTerminator) (ps dflt : Nat) : Nat :=
  match lastTerminatorBefore lineTerminators ps with
  | none => dflt
  | some lt => lt.codeUnit + lt.text.length

/-- The window end offset the claim describes: the end offset of the first
terminator at or after the span end, or the text length (the default). -/
def windowEndOf (lineTerminators : List LineTerminator) (pe dflt : Nat) : Nat :=
  match firstTerminatorAtOrAfter lineTerminators pe with
  | none => dflt
  | some lt => lt.codeUnit + lt.text.length

/-- The concatenation claimed by the spec: every line text followed by that
line terminator, for every line. -/
def specConcatAll : List TLine → List Char
  | [] => []
  | line :: rest => line.text ++ line.lineTerminator ++ specConcatAll rest

/-- The concatenation the flattener actually produces: every line text
followed by its terminator, except that the final line terminator is omitted. -/
def amendedConcat : List TLine → List Char
  | [] => []
  | line :: rest =>
    match rest with
    | [] => line.text
    | _ :: _ => line.text ++ line.lineTerminator ++ amendedConcat rest

/-
Theorems.
-/

/-- C9: every comment produced from a LineComment flat token has
`containsNewline` set to true, unconditionally, although such a comment sits on
a single line. -/
theorem readLineComment_containsNewline (flatToken : FlatLineToken) :
    (readLineComment flatToken).containsNewline = true ∧
    (readLineComment flatToken).kind = CommentKind.Line :=
  ⟨rfl, rfl⟩

/-- C1: `deepCopy` is not isolated.  Build a state with one node (id 1), deep
copy it, and call `addChild` on the copy with the copied node as parent: the
new id 2 appears in the ORIGINAL node's child list, because the object spread
in `deepCopyNode` shares the childNodeIds array between the two states.  The
first conjunct shows the original list before the call, the second after. -/
theorem deepCopy_shares_childNodeIds :
    (let r1 := ParserContext.addChild ⟨[]⟩ ParserContext.empty none 0 none
     let h1 := r1.1.1
     let s1 := r1.1.2
     let c := ParserContext.deepCopy h1 s1
     let r2 := ParserContext.addChild c.1 c.2 (ParserContext.mapGet c.2.nodesById 1) 0 none
     ((ParserContext.mapGet s1.nodesById 1).map (fun n => h1.ref n.childNodeIds) = some []) ∧
     ((ParserContext.mapGet s1.nodesById 1).map (fun n => r2.1.1.ref n.childNodeIds) = some [2])) := by
  decide

/-- C2: `deepCopy` loses the root.  The root lookup is hard-coded to id 0, but
`addChild` allocates ids starting at 1, so for a state whose root holds the
node with id 1 the copy's root holds no node at all. -/
theorem deepCopy_root_lost :
    (let r1 := ParserContext.addChild ⟨[]⟩ ParserContext.empty none 0 none
     let s1 := { r1.1.2 with root := some r1.2 }
     s1.root.isSome = true ∧ (ParserContext.deepCopy r1.1.1 s1).2.root = none) := by
  decide

/-- C3 counterexample: a stream [QuotedIdentifierStart, MultilineCommentStart,
MultilineCommentContent] contains a multiline-start token followed only by its
matching content up to the end of the stream, yet `tryFrom` reports the
internal invariant fault raised while reading the earlier quoted-identifier
start, not an UnterminatedMultilineTokenError. -/
theorem tryFrom_unterminated_cex :
    ((flattenLineTokens ⟨[⟨['#', 'q', '/', '*', 'c'], [],
        [⟨LineTokenKind.QuotedIdentifierStart, [], 0, 2⟩,
         ⟨LineTokenKind.MultilineCommentStart, [], 2, 4⟩,
         ⟨LineTokenKind.MultilineCommentContent, [], 4, 5⟩]⟩]⟩).flatLineTokens.map (fun t => t.kind) =
        [LineTokenKind.QuotedIdentifierStart, LineTokenKind.MultilineCommentStart,
         LineTokenKind.MultilineCommentContent]) ∧
    LexerSnapshot.tryFrom ⟨[⟨['#', 'q', '/', '*', 'c'], [],
        [⟨LineTokenKind.QuotedIdentifierStart, [], 0, 2⟩,
         ⟨LineTokenKind.MultilineCommentStart, [], 2, 4⟩,
         ⟨LineTokenKind.MultilineCommentContent, [], 4, 5⟩]⟩]⟩ =
      some (Except.error (TLexError.commonError Thrown.invariantError)) ∧
    isUnterminatedError (LexerSnapshot.tryFrom ⟨[⟨['#', 'q', '/', '*', 'c'], [],
        [⟨LineTokenKind.QuotedIdentifierStart, [], 0, 2⟩,
         ⟨LineTokenKind.MultilineCommentStart, [], 2, 4⟩,
         ⟨LineTokenKind.MultilineCommentContent, [], 4, 5⟩]⟩]⟩) = false := by
  decide

/-- C5 counterexample: for a single line with text "a" and terminator "\n" the
snapshot text is "a" (the flattener omits the final line terminator), while
concatenating every line text with its terminator gives "a\n". -/
theorem snapshot_text_cex :
    LexerSnapshot.tryFrom ⟨[⟨['a'], ['\n'], []⟩]⟩ =
      some (Except.ok ⟨['a'], [], [], [⟨1, ['\n']⟩]⟩) ∧
    specConcatAll (⟨[⟨['a'], ['\n'], []⟩]⟩ : LexerState).lines = ['a', '\n'] ∧
    (['a'] : List Char) ≠ ['a', '\n'] := by
  decide

/-- C6 counterexample: over an unsorted terminator table the loop breaks at
the first entry at or after the span end before it has seen the (later listed)
last entry strictly before the span start, so the computed window start is 0
instead of the claimed offset just past that terminator. -/
theorem substringWindow_cex :
    (let lts : List LineTerminator := [⟨5, ['X']⟩, ⟨0, ['Y']⟩]
     let text : List Char := ['a', 'b', 'c', 'd', 'e', 'f', 'g', 'h']
     substringWindow text lts 3 4 = (0, 6) ∧
     lastTerminatorBefore lts 3 = some ⟨0, ['Y']⟩ ∧
     firstTerminatorAtOrAfter lts 4 = some ⟨5, ['X']⟩ ∧
     substringWindow text lts 3 4 ≠ (0 + ['Y'].length, 6)) := by
  decide

/-- C8 counterexample: two lines with empty text and empty terminators produce
two terminator entries with the same offset 0, so the table is not strictly
ordered. -/
theorem lineTerminators_chain_cex :
    (let st : LexerState := ⟨[⟨[], [], []⟩, ⟨[], [], []⟩]⟩
     (flattenLineTokens st).lineTerminators = [⟨0, []⟩, ⟨0, []⟩] ∧
     ¬ List.Chain' (fun a b => a.codeUnit < b.codeUnit) (flattenLineTokens st).lineTerminators) := by
  refine ⟨by decide, fun hch => ?_⟩
  have h0 : (0 : Nat) < 0 := by
    have := List.chain'_cons.mp (by
      have heq : (flattenLineTokens ⟨[⟨[], [], []⟩, ⟨[], [], []⟩]⟩).lineTerminators =
          [(⟨0, []⟩ : LineTerminator), ⟨0, []⟩] := by decide
      rw [heq] at hch
      exact hch)
    exact this.1
  exact absurd h0 (by omega)

theorem windowLoop_spec (ps pe : Nat) (hpspe : ps ≤ pe) :
    ∀ (lts : List LineTerminator) (s e : Nat),
    lts.Pairwise (fun a b => a.codeUnit ≤ b.codeUnit) →
    windowLoop lts ps pe s e = (windowStartOf lts ps s, windowEndOf lts pe e) := by
  intro lts
  induction lts with
  | nil => intro s e _; rfl
  | cons lt rest ih =>
    intro s e hp
    have hhead := (List.pairwise_cons.mp hp).1
    have hrest := (List.pairwise_cons.mp hp).2
    by_cases hbreak : pe ≤ lt.codeUnit
    · have hnotlt : ¬ lt.codeUnit < ps := by omega
      have hfind : (lt :: rest).find? (fun x => decide (pe ≤ x.codeUnit)) = some lt :=
        List.find?_cons_of_pos _ (by simpa using hbreak)
      have hfilter : (lt :: rest).filter (fun x => decide (x.codeUnit < ps)) = [] := by
        apply List.filter_eq_nil_iff.mpr
        intro a ha
        rcases List.mem_cons.mp ha with h1 | h1
        · subst h1; simpa using hnotlt
        · have := hhead a h1
          simp only [decide_eq_true_eq]
          omega
      simp [windowLoop, hnotlt, hbreak, windowStartOf, windowEndOf,
        lastTerminatorBefore, firstTerminatorAtOrAfter, hfilter, hfind]
    · have hfind : (lt :: rest).find? (fun x => decide (pe ≤ x.codeUnit)) =
          rest.find? (fun x => decide (pe ≤ x.codeUnit)) :=
        List.find?_cons_of_neg _ (by simpa using hbreak)
      by_cases hlt : lt.codeUnit < ps
      · have hfilter : (lt :: rest).filter (fun x => decide (x.codeUnit < ps)) =
            lt :: rest.filter (fun x => decide (x.codeUnit < ps)) := by
          simp [List.filter_cons, hlt]
        rw [show windowLoop (lt :: rest) ps pe s e =
            windowLoop rest ps pe (lt.codeUnit + lt.text.length) e by
          simp [windowLoop, hlt, hbreak]]
        rw [ih _ _ hrest]
        unfold windowStartOf windowEndOf lastTerminatorBefore firstTerminatorAtOrAfter
        rw [hfilter, hfind]
        cases hfr : rest.filter (fun x => decide (x.codeUnit < ps)) with
        | nil => rfl
        | cons b l =>
          rw [List.getLast?_cons_cons]
          cases hbl : (b :: l).getLast? with
          | none => exact absurd (List.getLast?_eq_none_iff.mp hbl) (by simp)
          | some z => rfl
      · have hfilter : (lt :: rest).filter (fun x => decide (x.codeUnit < ps)) =
            rest.filter (fun x => decide (x.codeUnit < ps)) := by
          simp [List.filter_cons, hlt]
        rw [show windowLoop (lt :: rest) ps pe s e = windowLoop rest ps pe s e by
          simp [windowLoop, hlt, hbreak]]
        rw [ih _ _ hrest]
        unfold windowStartOf windowEndOf lastTerminatorBefore firstTerminatorAtOrAfter
        rw [hfilter, hfind]

/-- C6 (amended): over a terminator table that is sorted by offset, and for a
token whose start offset is at most its end offset, the window computed by
`graphemePositionStartFrom` starts just past the last terminator strictly
before the token start (0 when none exists) and ends at the end offset of the
first terminator at or after the token end (the text length when none
exists). -/
theorem substringWindow_spec (text : List Char) (lts : List LineTerminator) (ps pe : Nat)
    (hsorted : lts.Pairwise (fun a b => a.codeUnit ≤ b.codeUnit)) (hpspe : ps ≤ pe) :
    substringWindow text lts ps pe = (windowStartOf lts ps 0, windowEndOf lts pe text.length) :=
  windowLoop_spec ps pe hpspe lts 0 text.length hsorted

/-- C6 witness: the amended claim applied to a concrete sorted table. -/
theorem substringWindow_spec_witness :
    substringWindow ['a', 'b', '\n', 'c', 'd', '\n', 'e'] [⟨2, ['\n']⟩, ⟨5, ['\n']⟩] 4 5 =
      (windowStartOf [⟨2, ['\n']⟩, ⟨5, ['\n']⟩] 4 0,
       windowEndOf [⟨2, ['\n']⟩, ⟨5, ['\n']⟩] 5 ['a', 'b', '\n', 'c', 'd', '\n', 'e'].length) :=
  substringWindow_spec _ _ 4 5 (by decide) (by decide)

theorem flattenLinesAux_text :
    ∀ (lines : List TLine) (ln off fi N : Nat), ln + lines.length = N →
    (flattenLinesAux lines ln off fi N).text = amendedConcat lines := by
  intro lines
  induction lines with
  | nil => intro ln off fi N _; rfl
  | cons line rest ih =>
    intro ln off fi N hN
    simp only [List.length_cons] at hN
    cases rest with
    | nil =>
      have hcond : ¬ (ln ≠ N - 1) := by
        simp only [List.length_nil] at hN
        omega
      have hstep : (flattenLinesAux [line] ln off fi N).text =
          (line.text ++ (if ln ≠ N - 1 then line.lineTerminator else [])) ++
          (flattenLinesAux [] (ln + 1) (off + line.text.length + line.lineTerminator.length)
            (fi + line.tokens.length) N).text := rfl
      rw [hstep, if_neg hcond]
      simp [flattenLinesAux, amendedConcat]
    | cons l2 rest2 =>
      have hcond : ln ≠ N - 1 := by
        simp only [List.length_cons] at hN
        omega
      have hih := ih (ln + 1) (off + line.text.length + line.lineTerminator.length)
        (fi + line.tokens.length) N (by simp only [List.length_cons] at hN ⊢; omega)
      have hstep : (flattenLinesAux (line :: l2 :: rest2) ln off fi N).text =
          (line.text ++ (if ln ≠ N - 1 then line.lineTerminator else [])) ++
          (flattenLinesAux (l2 :: rest2) (ln + 1) (off + line.text.length + line.lineTerminator.length)
            (fi + line.tokens.length) N).text := rfl
      rw [hstep, if_pos hcond, hih]
      have hac : amendedConcat (line :: l2 :: rest2) =
          line.text ++ line.lineTerminator ++ amendedConcat (l2 :: rest2) := rfl
      rw [hac]

/-- C5 (amended): the snapshot text equals the concatenation of every line
text, each non-final line followed by its terminator, with the final line
terminator omitted. -/
theorem snapshot_text_amended (st : LexerState) (snap : LexerSnapshot)
    (h : LexerSnapshot.tryFrom st = some (Except.ok snap)) :
    snap.text = amendedConcat st.lines := by
  simp only [LexerSnapshot.tryFrom] at h
  rcases Option.map_eq_some'.mp h with ⟨r, hr, hwrap⟩
  cases r with
  | error e => simp [wrapResult] at hwrap
  | ok s0 =>
    have hs : s0 = snap := by simpa [wrapResult] using hwrap
    subst hs
    simp only [LexerSnapshot.factory] at hr
    rcases Option.map_eq_some'.mp hr with ⟨tc0, hloop, hmk⟩
    cases tc0 with
    | error e => simp [Except.map] at hmk
    | ok tc =>
      have hrec : (⟨(flattenLineTokens st).text, tc.1, tc.2,
          (flattenLineTokens st).lineTerminators⟩ : LexerSnapshot) = s0 := by
        simpa [Except.map] using hmk
      rw [← hrec]
      exact flattenLinesAux_text st.lines 0 0 0 st.lines.length (by omega)

/-- C5 witness: the amended claim applied to a concrete two-line state. -/
theorem snapshot_text_amended_witness :
    (⟨['a', 'b', '\n', 'c'], [], [], [⟨2, ['\n']⟩, ⟨4, []⟩]⟩ : LexerSnapshot).text =
      amendedConcat (⟨[⟨['a', 'b'], ['\n'], []⟩, ⟨['c'], [], []⟩]⟩ : LexerState).lines :=
  snapshot_text_amended ⟨[⟨['a', 'b'], ['\n'], []⟩, ⟨['c'], [], []⟩]⟩ _ (by decide)

theorem flattenLinesAux_terms :
    ∀ (lines : List TLine) (ln off fi N : Nat),
    (∀ k l, k + 1 < lines.length → lines[k]? = some l → l.lineTerminator ≠ []) →
    List.Chain' (fun a b => a.codeUnit < b.codeUnit) (flattenLinesAux lines ln off fi N).lineTerminators
    ∧ ∀ x ∈ (flattenLinesAux lines ln off fi N).lineTerminators, off ≤ x.codeUnit := by
  intro lines
  induction lines with
  | nil =>
    intro ln off fi N _
    exact ⟨List.chain'_nil, by intro x hx; simp [flattenLinesAux] at hx⟩
  | cons line rest ih =>
    intro ln off fi N hterm
    have hihAll := ih (ln + 1) (off + line.text.length + line.lineTerminator.length)
      (fi + line.tokens.length) N
      (by
        intro k l hk hl
        exact hterm (k + 1) l (by simp at hk ⊢; omega) (by simpa using hl))
    have hstep : (flattenLinesAux (line :: rest) ln off fi N).lineTerminators =
        (⟨off + line.text.length, line.lineTerminator⟩ : LineTerminator) ::
        (flattenLinesAux rest (ln + 1) (off + line.text.length + line.lineTerminator.length)
          (fi + line.tokens.length) N).lineTerminators := rfl
    rw [hstep]
    constructor
    · rw [List.chain'_cons']
      refine ⟨?_, hihAll.1⟩
      intro y hy
      have hymem := List.mem_of_mem_head? hy
      have hoff := hihAll.2 y hymem
      have hrest_ne : rest ≠ [] := by
        intro hre
        subst hre
        simp [flattenLinesAux] at hymem
      have hterm0 : line.lineTerminator ≠ [] := by
        apply hterm 0 line ?_ (by simp)
        cases rest with
        | nil => exact absurd rfl hrest_ne
        | cons a b => simp
      have hlen : 1 ≤ line.lineTerminator.length := by
        cases hl : line.lineTerminator with
        | nil => exact absurd hl hterm0
        | cons a b => simp
      show off + line.text.length < y.codeUnit
      omega
    · intro x hx
      rcases List.mem_cons.mp hx with h1 | h1
      · subst h1
        show off ≤ off + line.text.length
        omega
      · have := hihAll.2 x h1
        omega

/-- C8 (amended): for every lexer state in which each line except the last has
a nonempty terminator, the line terminator table produced by flattening is
strictly ordered: each entry offset is strictly greater than the previous
one.  (Without that proviso the table is only non-decreasing, see the
counterexample.) -/
theorem lineTerminators_chain (st : LexerState)
    (h : ∀ k l, k + 1 < st.lines.length → st.lines[k]? = some l → l.lineTerminator ≠ []) :
    List.Chain' (fun a b => a.codeUnit < b.codeUnit) (flattenLineTokens st).lineTerminators :=
  (flattenLinesAux_terms st.lines 0 0 0 st.lines.length h).1

theorem collectRun_all_content (ck : LineTokenKind) :
    ∀ l : List FlatLineToken, (∀ t ∈ l, t.kind = ck) → (collectRun ck l).2 = none := by
  intro l
  induction l with
  | nil => intro _; rfl
  | cons t rest ih =>
    intro h
    have ht : t.kind = ck := h t (List.mem_cons_self t rest)
    simp [collectRun, ht, ih (fun x hx => h x (List.mem_cons_of_mem t hx))]

theorem collectRun_reaches (ck : LineTokenKind) :
    ∀ (j : Nat) (l : List FlatLineToken) (te : FlatLineToken),
    (∀ k t, k < j → l[k]? = some t → t.kind = ck) →
    l[j]? = some te → te.kind ≠ ck →
    (collectRun ck l).2 = some te := by
  intro j
  induction j with
  | zero =>
    intro l te _ hj hne
    cases l with
    | nil => simp at hj
    | cons t rest =>
      rw [List.getElem?_cons_zero, Option.some_inj] at hj
      subst hj
      simp [collectRun, hne]
  | succ j ih =>
    intro l te hcontent hj hne
    cases l with
    | nil => simp at hj
    | cons t rest =>
      rw [List.getElem?_cons_succ] at hj
      have ht : t.kind = ck := hcontent 0 t (by omega) List.getElem?_cons_zero
      have hrec := ih rest te
        (fun k x hk hx => hcontent (k + 1) x (by omega) (by rw [List.getElem?_cons_succ]; exact hx))
        hj hne
      simp [collectRun, ht, hrec]

theorem collectWhileContent_end (ts : List FlatLineToken) (i j : Nat)
    (tokenStart tokenEnd : FlatLineToken) (ck : LineTokenKind)
    (hfi : tokenStart.flatIndex = i)
    (hj : ts[j]? = some tokenEnd)
    (hij : i < j)
    (hcontent : ∀ k t, i < k → k < j → ts[k]? = some t → t.kind = ck)
    (hne : tokenEnd.kind ≠ ck) :
    (collectWhileContent ts tokenStart ck).maybeTokenEnd = some tokenEnd := by
  show (collectRun ck (ts.drop (tokenStart.flatIndex + 1))).2 = some tokenEnd
  rw [hfi]
  apply collectRun_reaches ck (j - (i + 1)) _ tokenEnd
  · intro k t hk ht
    rw [List.getElem?_drop] at ht
    exact hcontent (i + 1 + k) t (by omega) (by omega) ht
  · rw [List.getElem?_drop, show i + 1 + (j - (i + 1)) = j by omega]
    exact hj
  · exact hne

theorem readMultilineComment_merge (fl : FlattenedLines) (i j : Nat)
    (tokenStart tokenEnd : FlatLineToken)
    (hfi : tokenStart.flatIndex = i) (hj : fl.flatLineTokens[j]? = some tokenEnd)
    (hfj : tokenEnd.flatIndex = j) (hij : i < j)
    (hkE : tokenEnd.kind = LineTokenKind.MultilineCommentEnd)
    (hcontent : ∀ k t, i < k → k < j → fl.flatLineTokens[k]? = some t →
      t.kind = LineTokenKind.MultilineCommentContent) :
    readMultilineComment fl tokenStart = Except.ok
      { comment :=
          { kind := CommentKind.Multiline
            data := jsSubstring fl.text tokenStart.positionStart.codeUnit tokenEnd.positionEnd.codeUnit
            containsNewline := tokenStart.positionStart.lineNumber != tokenEnd.positionEnd.lineNumber
            positionStart := tokenStart.positionStart
            positionEnd := tokenEnd.positionEnd }
        flatIndexEnd := j } := by
  have hend := collectWhileContent_end fl.flatLineTokens i j tokenStart tokenEnd _ hfi hj hij
    hcontent (by simp [hkE])
  simp only [readMultilineComment, hend, hkE, hfj, if_true]

theorem readQuotedIdentifier_merge (fl : FlattenedLines) (i j : Nat)
    (tokenStart tokenEnd : FlatLineToken)
    (hfi : tokenStart.flatIndex = i) (hj : fl.flatLineTokens[j]? = some tokenEnd)
    (hfj : tokenEnd.flatIndex = j) (hij : i < j)
    (hkE : tokenEnd.kind = LineTokenKind.QuotedIdentifierEnd)
    (hcontent : ∀ k t, i < k → k < j → fl.flatLineTokens[k]? = some t →
      t.kind = LineTokenKind.QuotedIdentifierContent) :
    readQuotedIdentifier fl tokenStart = Except.ok
      { token :=
          { kind := TokenKind.Identifier
            data := jsSubstring fl.text tokenStart.positionStart.codeUnit tokenEnd.positionEnd.codeUnit
            positionStart := tokenStart.positionStart
            positionEnd := tokenEnd.positionEnd }
        flatIndexEnd := j } := by
  have hend := collectWhileContent_end fl.flatLineTokens i j tokenStart tokenEnd _ hfi hj hij
    hcontent (by simp [hkE])
  simp only [readQuotedIdentifier, hend, hkE, hfj, if_true]

theorem readTextLiteral_merge (fl : FlattenedLines) (i j : Nat)
    (tokenStart tokenEnd : FlatLineToken)
    (hfi : tokenStart.flatIndex = i) (hj : fl.flatLineTokens[j]? = some tokenEnd)
    (hfj : tokenEnd.flatIndex = j) (hij : i < j)
    (hkE : tokenEnd.kind = LineTokenKind.TextLiteralEnd)
    (hcontent : ∀ k t, i < k → k < j → fl.flatLineTokens[k]? = some t →
      t.kind = LineTokenKind.TextLiteralContent) :
    readTextLiteral fl tokenStart = Except.ok
      { token :=
          { kind := TokenKind.TextLiteral
            data := jsSubstring fl.text tokenStart.positionStart.codeUnit tokenEnd.positionEnd.codeUnit
            positionStart := tokenStart.positionStart
            positionEnd := tokenEnd.positionEnd }
        flatIndexEnd := j } := by
  have hend := collectWhileContent_end fl.flatLineTokens i j tokenStart tokenEnd _ hfi hj hij
    hcontent (by simp [hkE])
  simp only [readTextLiteral, hend, hkE, hfj, if_true]

/-- C4: whenever a multiline start token's content run is terminated by a token
of the matching end kind, the factory emits exactly one merged comment (or
token) whose positionStart is the start token's positionStart, whose
positionEnd is the end token's positionEnd, whose data is the substring of the
global text between those two codeUnit offsets, whose containsNewline flag (for
comments) is true iff the start and end line numbers differ, and the loop
resumes at the flat token immediately after the end token (index j + 1). -/
theorem factoryLoop_merges_terminated_run (fl : FlattenedLines) (i j : Nat)
    (tokenStart tokenEnd : FlatLineToken)
    (hi : fl.flatLineTokens[i]? = some tokenStart)
    (hfi : tokenStart.flatIndex = i)
    (hj : fl.flatLineTokens[j]? = some tokenEnd)
    (hfj : tokenEnd.flatIndex = j)
    (hij : i < j) :
    (tokenStart.kind = LineTokenKind.MultilineCommentStart →
     tokenEnd.kind = LineTokenKind.MultilineCommentEnd →
     (∀ k t, i < k → k < j → fl.flatLineTokens[k]? = some t →
       t.kind = LineTokenKind.MultilineCommentContent) →
     ∀ fuel, factoryLoop fl (fuel + 1) i =
       (factoryLoop fl fuel (j + 1)).map (Except.map (fun tc => (tc.1,
         ({ kind := CommentKind.Multiline
            data := jsSubstring fl.text tokenStart.positionStart.codeUnit tokenEnd.positionEnd.codeUnit
            containsNewline := tokenStart.positionStart.lineNumber != tokenEnd.positionEnd.lineNumber
            positionStart := tokenStart.positionStart
            positionEnd := tokenEnd.positionEnd } : Comment) :: tc.2)))) ∧
    (tokenStart.kind = LineTokenKind.QuotedIdentifierStart →
     tokenEnd.kind = LineTokenKind.QuotedIdentifierEnd →
     (∀ k t, i < k → k < j → fl.flatLineTokens[k]? = some t →
       t.kind = LineTokenKind.QuotedIdentifierContent) →
     ∀ fuel, factoryLoop fl (fuel + 1) i =
       (factoryLoop fl fuel (j + 1)).map (Except.map (fun tc => (
         ({ kind := TokenKind.Identifier
            data := jsSubstring fl.text tokenStart.positionStart.codeUnit tokenEnd.positionEnd.codeUnit
            positionStart := tokenStart.positionStart
            positionEnd := tokenEnd.positionEnd } : Token) :: tc.1, tc.2)))) ∧
    (tokenStart.kind = LineTokenKind.TextLiteralStart →
     tokenEnd.kind = LineTokenKind.TextLiteralEnd →
     (∀ k t, i < k → k < j → fl.flatLineTokens[k]? = some t →
       t.kind = LineTokenKind.TextLiteralContent) →
     ∀ fuel, factoryLoop fl (fuel + 1) i =
       (factoryLoop fl fuel (j + 1)).map (Except.map (fun tc => (
         ({ kind := TokenKind.TextLiteral
            data := jsSubstring fl.text tokenStart.positionStart.codeUnit tokenEnd.positionEnd.codeUnit
            positionStart := tokenStart.positionStart
            positionEnd := tokenEnd.positionEnd } : Token) :: tc.1, tc.2)))) := by
  refine ⟨?_, ?_, ?_⟩ <;> intro hkS hkE hcontent fuel
  · have hread := readMultilineComment_merge fl i j tokenStart tokenEnd hfi hj hfj hij hkE hcontent
    simp only [factoryLoop, hi, hkS, hread]
  · have hread := readQuotedIdentifier_merge fl i j tokenStart tokenEnd hfi hj hfj hij hkE hcontent
    simp only [factoryLoop, hi, hkS, hread]
  · have hread := readTextLiteral_merge fl i j tokenStart tokenEnd hfi hj hfj hij hkE hcontent
    simp only [factoryLoop, hi, hkS, hread]

/-- C4 witness: the merged-comment equation instantiated on the two-line state
of the spec's Scenario A, at fuel 1. -/
theorem factoryLoop_merges_terminated_run_witness :
    factoryLoop (flattenLineTokens ⟨[⟨['/', '*', 'a'], ['\n'], [⟨LineTokenKind.MultilineCommentStart, [], 0, 3⟩]⟩,
        ⟨['b', '*', '/'], [], [⟨LineTokenKind.MultilineCommentEnd, [], 0, 3⟩]⟩]⟩) 2 0 =
      (factoryLoop (flattenLineTokens ⟨[⟨['/', '*', 'a'], ['\n'], [⟨LineTokenKind.MultilineCommentStart, [], 0, 3⟩]⟩,
        ⟨['b', '*', '/'], [], [⟨LineTokenKind.MultilineCommentEnd, [], 0, 3⟩]⟩]⟩) 1 2).map
        (Except.map (fun tc => (tc.1,
          ({ kind := CommentKind.Multiline
             data := jsSubstring (flattenLineTokens ⟨[⟨['/', '*', 'a'], ['\n'], [⟨LineTokenKind.MultilineCommentStart, [], 0, 3⟩]⟩,
               ⟨['b', '*', '/'], [], [⟨LineTokenKind.MultilineCommentEnd, [], 0, 3⟩]⟩]⟩).text 0 7
             containsNewline := (0 : Nat) != 1
             positionStart := ⟨0, 0, 0⟩
             positionEnd := ⟨7, 3, 1⟩ } : Comment) :: tc.2))) :=
  (factoryLoop_merges_terminated_run
    (flattenLineTokens ⟨[⟨['/', '*', 'a'], ['\n'], [⟨LineTokenKind.MultilineCommentStart, [], 0, 3⟩]⟩,
      ⟨['b', '*', '/'], [], [⟨LineTokenKind.MultilineCommentEnd, [], 0, 3⟩]⟩]⟩)
    0 1
    ⟨LineTokenKind.MultilineCommentStart, [], ⟨0, 0, 0⟩, ⟨3, 3, 0⟩, 0⟩
    ⟨LineTokenKind.MultilineCommentEnd, [], ⟨4, 0, 1⟩, ⟨7, 3, 1⟩, 1⟩
    (by decide) (by decide) (by decide) (by decide) (by decide)).1
    (by decide) (by decide) (by intro k t h1 h2 h3; omega) 1

theorem flattenLineToks_length :
    ∀ (toks : List LineToken) (off ln fi : Nat),
    (flattenLineToks toks off ln fi).length = toks.length := by
  intro toks
  induction toks with
  | nil => intro off ln fi; rfl
  | cons t r ih => intro off ln fi; simp [flattenLineToks, ih]

theorem flattenLineToks_flatIndex :
    ∀ (toks : List LineToken) (off ln fi k : Nat) (t : FlatLineToken),
    (flattenLineToks toks off ln fi)[k]? = some t → t.flatIndex = fi + k := by
  intro toks
  induction toks with
  | nil => intro off ln fi k t h; simp [flattenLineToks] at h
  | cons x r ih =>
    intro off ln fi k t h
    cases k with
    | zero =>
      rw [show flattenLineToks (x :: r) off ln fi =
          ({ kind := x.kind, data := x.data,
             positionStart := ⟨off + x.positionStart, x.positionStart, ln⟩,
             positionEnd := ⟨off + x.positionEnd, x.positionEnd, ln⟩,
             flatIndex := fi } : FlatLineToken) :: flattenLineToks r off ln (fi + 1) from rfl,
        List.getElem?_cons_zero, Option.some_inj] at h
      rw [← h]
      rfl
    | succ k =>
      rw [show flattenLineToks (x :: r) off ln fi =
          ({ kind := x.kind, data := x.data,
             positionStart := ⟨off + x.positionStart, x.positionStart, ln⟩,
             positionEnd := ⟨off + x.positionEnd, x.positionEnd, ln⟩,
             flatIndex := fi } : FlatLineToken) :: flattenLineToks r off ln (fi + 1) from rfl,
        List.getElem?_cons_succ] at h
      have := ih off ln (fi + 1) k t h
      omega

theorem flattenLinesAux_flatIndex :
    ∀ (lines : List TLine) (ln off fi N k : Nat) (t : FlatLineToken),
    (flattenLinesAux lines ln off fi N).flatLineTokens[k]? = some t → t.flatIndex = fi + k := by
  intro lines
  induction lines with
  | nil => intro ln off fi N k t h; simp [flattenLinesAux] at h
  | cons line rest ih =>
    intro ln off fi N k t h
    have hstep : (flattenLinesAux (line :: rest) ln off fi N).flatLineTokens =
        flattenLineToks line.tokens off ln fi ++
        (flattenLinesAux rest (ln + 1) (off + line.text.length + line.lineTerminator.length)
          (fi + line.tokens.length) N).flatLineTokens := rfl
    rw [hstep] at h
    by_cases hk : k < (flattenLineToks line.tokens off ln fi).length
    · rw [List.getElem?_append_left hk] at h
      exact flattenLineToks_flatIndex line.tokens off ln fi k t h
    · push_neg at hk
      rw [List.getElem?_append_right hk] at h
      have hrec := ih (ln + 1) (off + line.text.length + line.lineTerminator.length)
        (fi + line.tokens.length) N (k - (flattenLineToks line.tokens off ln fi).length) t h
      have hlen := flattenLineToks_length line.tokens off ln fi
      omega

theorem flatten_flatIndex (st : LexerState) (k : Nat) (t : FlatLineToken)
    (h : (flattenLineTokens st).flatLineTokens[k]? = some t) : t.flatIndex = k := by
  have := flattenLinesAux_flatIndex st.lines 0 0 0 st.lines.length k t h
  omega

theorem factoryLoop_step_error (fl : FlattenedLines) (f i : Nat) (t : FlatLineToken) (e : Thrown)
    (h1 : fl.flatLineTokens[i]? = some t) (h2 : isStartKind t.kind = false)
    (h3 : factoryLoop fl f (i + 1) = some (Except.error e)) :
    factoryLoop fl (f + 1) i = some (Except.error e) := by
  cases ht : t.kind with
  | LineComment => simp [factoryLoop, h1, ht, h3, Except.map]
  | MultilineComment => simp [factoryLoop, h1, ht, h3, Except.map]
  | MultilineCommentStart => rw [ht] at h2; simp [isStartKind] at h2
  | MultilineCommentContent => simp [factoryLoop, h1, ht, h3, Except.map]
  | MultilineCommentEnd => simp [factoryLoop, h1, ht, h3, Except.map]
  | QuotedIdentifierStart => rw [ht] at h2; simp [isStartKind] at h2
  | QuotedIdentifierContent => simp [factoryLoop, h1, ht, h3, Except.map]
  | QuotedIdentifierEnd => simp [factoryLoop, h1, ht, h3, Except.map]
  | TextLiteralStart => rw [ht] at h2; simp [isStartKind] at h2
  | TextLiteralContent => simp [factoryLoop, h1, ht, h3, Except.map]
  | TextLiteralEnd => simp [factoryLoop, h1, ht, h3, Except.map]
  | Other n => simp [factoryLoop, h1, ht, h3, Except.map]

theorem factoryLoop_prefix_error (fl : FlattenedLines) :
    ∀ (k fuel i : Nat) (e : Thrown),
    (∀ m t, m < k → fl.flatLineTokens[i + m]? = some t → isStartKind t.kind = false) →
    factoryLoop fl fuel (i + k) = some (Except.error e) →
    factoryLoop fl (k + fuel) i = some (Except.error e) := by
  intro k
  induction k with
  | zero =>
    intro fuel i e _ h
    simpa using h
  | succ k ih =>
    intro fuel i e hpre h
    cases hti : fl.flatLineTokens[i]? with
    | none =>
      exfalso
      have hlen : fl.flatLineTokens.length ≤ i := List.getElem?_eq_none_iff.mp hti
      have hnone : fl.flatLineTokens[i + (k + 1)]? = none :=
        List.getElem?_eq_none (by omega)
      cases fuel with
      | zero => simp [factoryLoop] at h
      | succ f => simp [factoryLoop, hnone] at h
    | some t =>
      have hns : isStartKind t.kind = false := hpre 0 t (by omega) (by simpa using hti)
      have hrec := ih fuel (i + 1) e
        (fun m x hm hx => hpre (m + 1) x (by omega) (by rw [show i + (m + 1) = i + 1 + m by omega]; exact hx))
        (by rw [show i + 1 + k = i + (k + 1) by omega]; exact h)
      rw [show k + 1 + fuel = (k + fuel) + 1 by omega]
      exact factoryLoop_step_error fl (k + fuel) i t e hti hns hrec

/-- C3 (amended): for every lexer state whose flat token stream is a run of
non-start-kind tokens, then a multiline start token, then only tokens of the
matching content kind up to the end of the stream, `tryFrom` returns an error
carrying UnterminatedMultilineTokenError of the matching kind positioned at the
grapheme position of the start token, and no snapshot is produced.  (The
original claim quantified over any stream containing such a start token; an
earlier multiline construct can fail first, see the counterexample.) -/
theorem tryFrom_unterminated_first_start (st : LexerState)
    (pre content : List FlatLineToken) (startTok : FlatLineToken) (ck : LineTokenKind)
    (hts : (flattenLineTokens st).flatLineTokens = pre ++ startTok :: content)
    (hpre : ∀ t ∈ pre, isStartKind t.kind = false)
    (hstart : isStartKind startTok.kind = true)
    (hck : contentKindOf startTok.kind = some ck)
    (hcontent : ∀ t ∈ content, t.kind = ck) :
    LexerSnapshot.tryFrom st = some (Except.error (TLexError.lexError
      (Thrown.unterminatedMultilineTokenError
        (LexerSnapshot.graphemePositionStartFrom (flattenLineTokens st).text
          (flattenLineTokens st).lineTerminators startTok)
        (unterminatedKindOf startTok.kind)))) := by
  have hp : (flattenLineTokens st).flatLineTokens[pre.length]? = some startTok := by
    rw [hts, List.getElem?_append_right (Nat.le_refl _)]
    simp
  have hfi : startTok.flatIndex = pre.length := flatten_flatIndex st pre.length startTok hp
  have hdrop : (flattenLineTokens st).flatLineTokens.drop (startTok.flatIndex + 1) = content := by
    rw [hfi, hts, ← List.drop_drop 1 pre.length _, List.drop_left]
    rfl
  have hlen : (flattenLineTokens st).flatLineTokens.length = pre.length + (content.length + 1) := by
    rw [hts]
    simp
  have hrunNone : (collectRun ck ((flattenLineTokens st).flatLineTokens.drop (startTok.flatIndex + 1))).2 = none := by
    rw [hdrop]
    exact collectRun_all_content ck content hcontent
  have hstep : factoryLoop (flattenLineTokens st) (content.length + 2) pre.length =
      some (Except.error (Thrown.unterminatedMultilineTokenError
        (LexerSnapshot.graphemePositionStartFrom (flattenLineTokens st).text
          (flattenLineTokens st).lineTerminators startTok)
        (unterminatedKindOf startTok.kind))) := by
    rw [show content.length + 2 = (content.length + 1) + 1 from rfl]
    cases hkind : startTok.kind with
    | MultilineCommentStart =>
      have hend : (collectWhileContent (flattenLineTokens st).flatLineTokens startTok
          LineTokenKind.MultilineCommentContent).maybeTokenEnd = none := by
        show (collectRun LineTokenKind.MultilineCommentContent
          ((flattenLineTokens st).flatLineTokens.drop (startTok.flatIndex + 1))).2 = none
        rw [hkind] at hck
        simp only [contentKindOf, Option.some_inj] at hck
        rw [← hck] at hrunNone
        exact hrunNone
      have hread : readMultilineComment (flattenLineTokens st) startTok =
          Except.error (Thrown.unterminatedMultilineTokenError
            (LexerSnapshot.graphemePositionStartFrom (flattenLineTokens st).text
              (flattenLineTokens st).lineTerminators startTok)
            UnterminatedMultilineTokenKind.MultilineComment) := by
        simp only [readMultilineComment, hend]
      simp only [factoryLoop, hp, hkind, hread, unterminatedKindOf]
    | QuotedIdentifierStart =>
      have hend : (collectWhileContent (flattenLineTokens st).flatLineTokens startTok
          LineTokenKind.QuotedIdentifierContent).maybeTokenEnd = none := by
        show (collectRun LineTokenKind.QuotedIdentifierContent
          ((flattenLineTokens st).flatLineTokens.drop (startTok.flatIndex + 1))).2 = none
        rw [hkind] at hck
        simp only [contentKindOf, Option.some_inj] at hck
        rw [← hck] at hrunNone
        exact hrunNone
      have hread : readQuotedIdentifier (flattenLineTokens st) startTok =
          Except.error (Thrown.unterminatedMultilineTokenError
            (LexerSnapshot.graphemePositionStartFrom (flattenLineTokens st).text
              (flattenLineTokens st).lineTerminators startTok)
            UnterminatedMultilineTokenKind.QuotedIdentifier) := by
        simp only [readQuotedIdentifier, hend]
      simp only [factoryLoop, hp, hkind, hread, unterminatedKindOf]
    | TextLiteralStart =>
      have hend : (collectWhileContent (flattenLineTokens st).flatLineTokens startTok
          LineTokenKind.TextLiteralContent).maybeTokenEnd = none := by
        show (collectRun LineTokenKind.TextLiteralContent
          ((flattenLineTokens st).flatLineTokens.drop (startTok.flatIndex + 1))).2 = none
        rw [hkind] at hck
        simp only [contentKindOf, Option.some_inj] at hck
        rw [← hck] at hrunNone
        exact hrunNone
      have hread : readTextLiteral (flattenLineTokens st) startTok =
          Except.error (Thrown.unterminatedMultilineTokenError
            (LexerSnapshot.graphemePositionStartFrom (flattenLineTokens st).text
              (flattenLineTokens st).lineTerminators startTok)
            UnterminatedMultilineTokenKind.Text) := by
        simp only [readTextLiteral, hend]
      simp only [factoryLoop, hp, hkind, hread, unterminatedKindOf]
    | LineComment => rw [hkind] at hstart; simp [isStartKind] at hstart
    | MultilineComment => rw [hkind] at hstart; simp [isStartKind] at hstart
    | MultilineCommentContent => rw [hkind] at hstart; simp [isStartKind] at hstart
    | MultilineCommentEnd => rw [hkind] at hstart; simp [isStartKind] at hstart
    | QuotedIdentifierContent => rw [hkind] at hstart; simp [isStartKind] at hstart
    | QuotedIdentifierEnd => rw [hkind] at hstart; simp [isStartKind] at hstart
    | TextLiteralContent => rw [hkind] at hstart; simp [isStartKind] at hstart
    | TextLiteralEnd => rw [hkind] at hstart; simp [isStartKind] at hstart
    | Other n => rw [hkind] at hstart; simp [isStartKind] at hstart
  have hloop : factoryLoop (flattenLineTokens st) ((flattenLineTokens st).flatLineTokens.length + 1) 0 =
      some (Except.error (Thrown.unterminatedMultilineTokenError
        (LexerSnapshot.graphemePositionStartFrom (flattenLineTokens st).text
          (flattenLineTokens st).lineTerminators startTok)
        (unterminatedKindOf startTok.kind))) := by
    rw [show (flattenLineTokens st).flatLineTokens.length + 1 = pre.length + (content.length + 2) from by omega]
    apply factoryLoop_prefix_error (flattenLineTokens st) pre.length (content.length + 2) 0
    · intro m t hm hmt
      apply hpre t
      rw [Nat.zero_add] at hmt
      rw [hts, List.getElem?_append_left (by omega)] at hmt
      exact List.getElem?_mem hmt
    · rw [Nat.zero_add]
      exact hstep
  simp only [LexerSnapshot.tryFrom, LexerSnapshot.factory, hloop]
  rfl

/-- C3 witness: the amended claim applied to the unterminated text literal of
the spec's Scenario B. -/
theorem tryFrom_unterminated_first_start_witness :
    LexerSnapshot.tryFrom ⟨[⟨['"', 'a'], [],
        [⟨LineTokenKind.TextLiteralStart, [], 0, 1⟩,
         ⟨LineTokenKind.TextLiteralContent, [], 1, 2⟩]⟩]⟩ =
      some (Except.error (TLexError.lexError
        (Thrown.unterminatedMultilineTokenError
          (LexerSnapshot.graphemePositionStartFrom
            (flattenLineTokens ⟨[⟨['"', 'a'], [],
              [⟨LineTokenKind.TextLiteralStart, [], 0, 1⟩,
               ⟨LineTokenKind.TextLiteralContent, [], 1, 2⟩]⟩]⟩).text
            (flattenLineTokens ⟨[⟨['"', 'a'], [],
              [⟨LineTokenKind.TextLiteralStart, [], 0, 1⟩,
               ⟨LineTokenKind.TextLiteralContent, [], 1, 2⟩]⟩]⟩).lineTerminators
            ⟨LineTokenKind.TextLiteralStart, [], ⟨0, 0, 0⟩, ⟨1, 1, 0⟩, 0⟩)
          (unterminatedKindOf LineTokenKind.TextLiteralStart)))) :=
  tryFrom_unterminated_first_start
    ⟨[⟨['"', 'a'], [],
      [⟨LineTokenKind.TextLiteralStart, [], 0, 1⟩,
       ⟨LineTokenKind.TextLiteralContent, [], 1, 2⟩]⟩]⟩
    []
    [⟨LineTokenKind.TextLiteralContent, [], ⟨1, 1, 0⟩, ⟨2, 2, 0⟩, 1⟩]
    ⟨LineTokenKind.TextLiteralStart, [], ⟨0, 0, 0⟩, ⟨1, 1, 0⟩, 0⟩
    LineTokenKind.TextLiteralContent
    (by decide) (by intro t ht; simp at ht) (by decide) (by decide)
    (by intro t ht; simp at ht; rw [ht])

/-- C8 witness: the amended claim applied to a concrete two-line state with a
nonempty non-final terminator. -/
theorem lineTerminators_chain_witness :
    List.Chain' (fun a b => a.codeUnit < b.codeUnit)
      (flattenLineTokens ⟨[⟨['a'], ['\n'], []⟩, ⟨[], [], []⟩]⟩).lineTerminators :=
  lineTerminators_chain ⟨[⟨['a'], ['\n'], []⟩, ⟨[], [], []⟩]⟩ (by
    intro k l hk hl
    simp only [List.length_cons, List.length_nil] at hk
    have hk0 : k = 0 := by omega
    subst hk0
    rw [List.getElem?_cons_zero, Option.some_inj] at hl
    rw [← hl]
    simp)

theorem addChild_counter (h : Heap) (s : ParserContext.State) (mp : Option ParserContext.Node)
    (k : Nat) (t : Option Token) :
    (ParserContext.addChild h s mp k t).1.2.nodeIdCounter = s.nodeIdCounter + 1 ∧
    (ParserContext.addChild h s mp k t).2.nodeId = s.nodeIdCounter + 1 := by
  cases mp <;> exact ⟨rfl, rfl⟩

theorem endContext_counter (s : ParserContext.State) (n : ParserContext.Node)
    (a : ParserContext.AstNode) :
    (ParserContext.endContext s n a).1.nodeIdCounter = s.nodeIdCounter := by
  simp only [ParserContext.endContext]
  repeat' split
  all_goals rfl

theorem deleteContext_counter (h : Heap) (s : ParserContext.State) (n : ParserContext.Node) :
    (ParserContext.deleteContext h s n).1.2.nodeIdCounter = s.nodeIdCounter := by
  simp only [ParserContext.deleteContext]
  repeat' split
  all_goals rfl

theorem deepCopy_counter (h : Heap) (s : ParserContext.State) :
    (ParserContext.deepCopy h s).2.nodeIdCounter = s.nodeIdCounter := rfl

theorem applyOp_counter (hs : Heap × ParserContext.State) (op : ArenaOp) :
    ((applyOp hs op).1.2.nodeIdCounter = hs.2.nodeIdCounter ∧ (applyOp hs op).2 = none) ∨
    ((applyOp hs op).1.2.nodeIdCounter = hs.2.nodeIdCounter + 1 ∧
     (applyOp hs op).2 = some (hs.2.nodeIdCounter + 1)) := by
  cases op with
  | addChildOp mp k t =>
    right
    have hc := addChild_counter hs.1 hs.2 (mp.bind fun i => ParserContext.mapGet hs.2.nodesById i) k t
    exact ⟨hc.1, by simp only [applyOp, Option.some_inj]; exact hc.2⟩
  | endContextOp nid a =>
    left
    cases hget : ParserContext.mapGet hs.2.nodesById nid with
    | none => simp [applyOp, hget]
    | some n => simp [applyOp, hget, endContext_counter]
  | deleteContextOp nid =>
    left
    cases hget : ParserContext.mapGet hs.2.nodesById nid with
    | none => simp [applyOp, hget]
    | some n => simp [applyOp, hget, deleteContext_counter]
  | deepCopyOp => exact Or.inl ⟨rfl, rfl⟩

theorem runOps_ids :
    ∀ (ops : List ArenaOp) (hs : Heap × ParserContext.State),
    List.Pairwise (· < ·) (runOps hs ops).2 ∧
    (∀ x ∈ (runOps hs ops).2, hs.2.nodeIdCounter < x) ∧
    hs.2.nodeIdCounter ≤ (runOps hs ops).1.2.nodeIdCounter := by
  intro ops
  induction ops with
  | nil =>
    intro hs
    exact ⟨List.Pairwise.nil, by intro x hx; simp [runOps] at hx, Nat.le_refl _⟩
  | cons op rest ih =>
    intro hs
    have hstep : runOps hs (op :: rest) =
        ((runOps (applyOp hs op).1 rest).1,
         (applyOp hs op).2.toList ++ (runOps (applyOp hs op).1 rest).2) := rfl
    rw [hstep]
    have hihAll := ih (applyOp hs op).1
    rcases applyOp_counter hs op with ⟨hc, hid⟩ | ⟨hc, hid⟩
    · rw [hid]
      simp only [Option.toList_none, List.nil_append]
      refine ⟨hihAll.1, ?_, ?_⟩
      · intro x hx
        have := hihAll.2.1 x hx
        omega
      · have := hihAll.2.2
        omega
    · rw [hid]
      simp only [Option.toList_some, List.singleton_append]
      refine ⟨?_, ?_, ?_⟩
      · rw [List.pairwise_cons]
        refine ⟨?_, hihAll.1⟩
        intro y hy
        have := hihAll.2.1 y hy
        omega
      · intro x hx
        rcases List.mem_cons.mp hx with h1 | h1
        · subst h1; omega
        · have := hihAll.2.1 x h1
          omega
      · have := hihAll.2.2
        omega

/-- C7: the arena id counter increases by exactly one on each addChild call and
the returned node carries that fresh id; endContext, deleteContext and deepCopy
leave the counter of the driven state unchanged; and over any interleaved
operation sequence the ids returned by addChild are pairwise strictly
increasing and all strictly greater than the initial counter, hence distinct
from every id allocated before, including ids of since-deleted nodes. -/
theorem nodeIdCounter_monotone :
    (∀ (h : Heap) (s : ParserContext.State) (mp : Option ParserContext.Node) (k : Nat) (t : Option Token),
      (ParserContext.addChild h s mp k t).1.2.nodeIdCounter = s.nodeIdCounter + 1 ∧
      (ParserContext.addChild h s mp k t).2.nodeId = s.nodeIdCounter + 1) ∧
    (∀ (s : ParserContext.State) (n : ParserContext.Node) (a : ParserContext.AstNode),
      (ParserContext.endContext s n a).1.nodeIdCounter = s.nodeIdCounter) ∧
    (∀ (h : Heap) (s : ParserContext.State) (n : ParserContext.Node),
      (ParserContext.deleteContext h s n).1.2.nodeIdCounter = s.nodeIdCounter) ∧
    (∀ (h : Heap) (s : ParserContext.State),
      (ParserContext.deepCopy h s).2.nodeIdCounter = s.nodeIdCounter) ∧
    (∀ (hs : Heap × ParserContext.State) (ops : List ArenaOp),
      List.Pairwise (· < ·) (runOps hs ops).2 ∧
      (∀ x ∈ (runOps hs ops).2, hs.2.nodeIdCounter < x) ∧
      hs.2.nodeIdCounter ≤ (runOps hs ops).1.2.nodeIdCounter) :=
  ⟨addChild_counter, endContext_counter, deleteContext_counter, deepCopy_counter,
    fun hs ops => runOps_ids ops hs⟩

/-- C7 witness: running one addChild from the empty arena returns id 1, which
is strictly greater than the initial counter 0. -/
theorem nodeIdCounter_monotone_witness :
    ((⟨[]⟩, ParserContext.empty) : Heap × ParserContext.State).2.nodeIdCounter < 1 :=
  (nodeIdCounter_monotone.2.2.2.2 (⟨[]⟩, ParserContext.empty)
    [ArenaOp.addChildOp none 0 none]).2.1 1 (by decide)

theorem jsIndexOf_eq_none : ∀ (l : List Nat) (a : Nat), jsIndexOf l a = none ↔ a ∉ l := by
  intro l a
  induction l with
  | nil => simp [jsIndexOf]
  | cons x r ih =>
    by_cases hx : x = a
    · subst hx
      simp [jsIndexOf]
    · simp only [jsIndexOf, if_neg hx, Option.map_eq_none', List.mem_cons]
      constructor
      · intro hnone hmem
        rcases hmem with h1 | h1
        · exact hx h1.symm
        · exact (ih.mp hnone) h1
      · intro hnm
        exact ih.mpr (fun hmem => hnm (Or.inr hmem))

theorem removeFirst_not_mem :
    ∀ (l : List Nat) (a i : Nat), l.count a ≤ 1 → jsIndexOf l a = some i →
    a ∉ (l.take i ++ l.drop (i + 1)) := by
  intro l
  induction l with
  | nil => intro a i _ hidx; simp [jsIndexOf] at hidx
  | cons x r ih =>
    intro a i hcount hidx
    by_cases hx : x = a
    · have hi0 : i = 0 := by
        simp [jsIndexOf, hx] at hidx
        omega
      subst hi0
      simp only [List.take_zero, List.nil_append, List.drop_succ_cons, List.drop_zero]
      have hc : r.count a = 0 := by
        rw [hx, List.count_cons_self] at hcount
        omega
      exact List.count_eq_zero.mp hc
    · have hsome : ∃ j, jsIndexOf r a = some j ∧ i = j + 1 := by
        simp only [jsIndexOf, if_neg hx] at hidx
        rcases Option.map_eq_some'.mp hidx with ⟨j, hj, hji⟩
        exact ⟨j, hj, hji.symm⟩
      rcases hsome with ⟨j, hj, hi⟩
      subst hi
      simp only [List.take_succ_cons, List.drop_succ_cons, List.cons_append, List.mem_cons]
      intro hmem
      rcases hmem with h1 | h1
      · exact hx h1.symm
      · have hcr : r.count a ≤ 1 := by
          rw [List.count_cons_of_ne (fun hax => hx hax.symm)] at hcount
          exact hcount
        exact ih a j hcr hj h1

theorem mapGet_mapDelete_self : ∀ (m : ParserContext.NodeMap) (k : Nat),
    ParserContext.mapGet (ParserContext.mapDelete m k) k = none := by
  intro m k
  induction m with
  | nil => rfl
  | cons e r ih =>
    by_cases he : e.1 = k
    · simp [ParserContext.mapDelete, he, ih]
    · simp [ParserContext.mapDelete, ParserContext.mapGet, he, ih]

theorem mapGet_mapDelete_ne : ∀ (m : ParserContext.NodeMap) (k k2 : Nat), k2 ≠ k →
    ParserContext.mapGet (ParserContext.mapDelete m k) k2 = ParserContext.mapGet m k2 := by
  intro m k k2 hne
  induction m with
  | nil => rfl
  | cons e r ih =>
    by_cases he : e.1 = k
    · have h2 : ¬ (k = k2) := fun heq => hne heq.symm
      simp [ParserContext.mapDelete, ParserContext.mapGet, he, h2, ih]
    · simp [ParserContext.mapDelete, ParserContext.mapGet, he, ih]

/-- C10: when deleteContext raises the structural-corruption invariant fault
(the node carries a parent id, the parent is present, but does not list the
node id among its children), the state has already been mutated before the
fault: the node id is gone from the node map and absent from the terminal id
list (whose entries are unique under single finalization, stated here as a
count bound), so the operation is not atomic on this error path. -/
theorem deleteContext_nonatomic (h : Heap) (s : ParserContext.State)
    (node parent : ParserContext.Node) (pid : Nat)
    (h1 : ParserContext.mapHas s.nodesById node.nodeId = true)
    (h2 : node.maybeParentId = some pid)
    (h3 : pid ≠ node.nodeId)
    (h4 : ParserContext.mapGet s.nodesById pid = some parent)
    (h5 : node.nodeId ∉ h.ref parent.childNodeIds)
    (h6 : s.terminalNodeIds.count node.nodeId ≤ 1) :
    (ParserContext.deleteContext h s node).2 = Except.error Thrown.invariantError ∧
    ParserContext.mapGet (ParserContext.deleteContext h s node).1.2.nodesById node.nodeId = none ∧
    node.nodeId ∉ (ParserContext.deleteContext h s node).1.2.terminalNodeIds := by
  have hpget : ParserContext.mapGet (ParserContext.mapDelete s.nodesById node.nodeId) pid = some parent := by
    rw [mapGet_mapDelete_ne s.nodesById node.nodeId pid h3]
    exact h4
  have hchild : jsIndexOf (h.ref parent.childNodeIds) node.nodeId = none :=
    (jsIndexOf_eq_none _ _).mpr h5
  cases hterm : jsIndexOf s.terminalNodeIds node.nodeId with
  | none =>
    have heval : ParserContext.deleteContext h s node =
        ((h, { s with nodesById := ParserContext.mapDelete s.nodesById node.nodeId }),
         Except.error Thrown.invariantError) := by
      simp only [ParserContext.deleteContext, h1, if_true, hterm, h2, hpget, hchild]
    rw [heval]
    exact ⟨rfl, mapGet_mapDelete_self _ _, (jsIndexOf_eq_none _ _).mp hterm⟩
  | some ti =>
    have heval : ParserContext.deleteContext h s node =
        ((h, { s with
            nodesById := ParserContext.mapDelete s.nodesById node.nodeId
            terminalNodeIds := s.terminalNodeIds.take ti ++ s.terminalNodeIds.drop (ti + 1) }),
         Except.error Thrown.invariantError) := by
      simp only [ParserContext.deleteContext, h1, if_true, hterm, h2, hpget, hchild]
    rw [heval]
    exact ⟨rfl, mapGet_mapDelete_self _ _,
      removeFirst_not_mem s.terminalNodeIds node.nodeId ti h6 hterm⟩

/-- C10 witness: the non-atomicity statement applied to a concrete corrupt
arena (node 2 claims parent 1, but node 1 has an empty child list). -/
theorem deleteContext_nonatomic_witness :
    (ParserContext.deleteContext ⟨[[], []]⟩
      ⟨none, [(1, ⟨1, 0, none, none, 0, none⟩), (2, ⟨2, 0, none, some 1, 1, none⟩)], [2], 2⟩
      ⟨2, 0, none, some 1, 1, none⟩).2 = Except.error Thrown.invariantError ∧
    ParserContext.mapGet (ParserContext.deleteContext ⟨[[], []]⟩
      ⟨none, [(1, ⟨1, 0, none, none, 0, none⟩), (2, ⟨2, 0, none, some 1, 1, none⟩)], [2], 2⟩
      ⟨2, 0, none, some 1, 1, none⟩).1.2.nodesById
      (⟨2, 0, none, some 1, 1, none⟩ : ParserContext.Node).nodeId = none ∧
    (⟨2, 0, none, some 1, 1, none⟩ : ParserContext.Node).nodeId ∉
      (ParserContext.deleteContext ⟨[[], []]⟩
        ⟨none, [(1, ⟨1, 0, none, none, 0, none⟩), (2, ⟨2, 0, none, some 1, 1, none⟩)], [2], 2⟩
        ⟨2, 0, none, some 1, 1, none⟩).1.2.terminalNodeIds :=
  deleteContext_nonatomic ⟨[[], []]⟩
    ⟨none, [(1, ⟨1, 0, none, none, 0, none⟩), (2, ⟨2, 0, none, some 1, 1, none⟩)], [2], 2⟩
    ⟨2, 0, none, some 1, 1, none⟩ ⟨1, 0, none, none, 0, none⟩ 1
    (by decide) (by decide) (by decide) (by decide) (by decide) (by decide)

end PowerQuery
